import Mathlib

/-!
Verification of the turn/parsing/audio core of the Tribun-AI trial simulator.

The definitions below are a shallow embedding of the TypeScript sources:
  * `src/App.tsx` — `parseAIResponse`, `parseTurnAndCleanText`, the
    turn-resolution tail of `processAIStream` and of `handleStartSimulation`;
  * `src/utils/turnManager.ts` — `TurnManager` (`isUserSpeaker`,
    `isAISpeaker`, `validateAIMessage`, `computeTurnState`);
  * `src/services/audioService.ts` — the narration queue
    (`speak`, `processQueue`, `generateSpeechWithRetry`, `cancel`,
    `waitForQueueCompletion`, `setMuted`, `cleanTextForSpeech`).

Modelling conventions:
  * JavaScript strings are Lean `String`s (lists of unicode chars);
    the JS whitespace class `\s` and `String.prototype.trim` are modelled
    by `isJsWs`/`jsTrim` over the whitespace characters that can actually
    occur here (space, tab, CR, LF, VT, FF, NBSP).
  * The regexes of the source are hand-compiled to scanners over `List Char`
    that implement the same leftmost-match semantics; each scanner carries a
    comment relating it to the regex it implements.
  * `crypto.randomUUID()` ids are omitted from `Utterance` and queue items:
    no claim mentions them.
  * Functions whose recursion consumes a variable number of characters take
    an explicit fuel argument (always instantiated with the input length, an
    upper bound on the number of steps) so that they stay kernel-computable.
  * Network/audio effects are oracles: text-to-speech synthesis is a function
    argument; `async`/`await` sequencing becomes explicit state passing.
-/

/-- The `Speaker` enum of `src/types.ts`.  Constructor names are the Spanish
role names used by the source (`JUEZ`, `MINISTERIO_PUBLICO`, `DEFENSA`,
`TESTIGO`, `PROFESOR`, `SECRETARIO`, `IMPUTADO`), capitalised Lean-style. -/
inductive Speaker where
  | Juez
  | MinisterioPublico
  | Defensa
  | Testigo
  | Profesor
  | Secretario
  | Imputado
deriving DecidableEq, Repr, Fintype

/-- The string value of each `Speaker` enum member in `src/types.ts`. -/
def speakerLabel : Speaker → String
  | .Juez => "Juez"
  | .MinisterioPublico => "Ministerio Público"
  | .Defensa => "Defensa"
  | .Testigo => "Testigo"
  | .Profesor => "Profesor"
  | .Secretario => "Secretario"
  | .Imputado => "Imputado"

/-- One speaker-attributed chat message (`ChatMessage` of `src/types.ts`,
with the random `id` omitted). -/
structure Utterance where
  speaker : Speaker
  text : String
deriving DecidableEq, Repr

/-- Whitespace characters recognised by the JS `\s` class / `trim()` that are
relevant here: space, tab, LF, CR, VT, FF and NBSP. -/
def isJsWs (c : Char) : Bool :=
  c = ' ' || c = '\t' || c = '\n' || c = '\r' || c = '\x0b' || c = '\x0c' || c = ' '

/-- Strip leading and trailing JS whitespace from a char list. -/
def trimChars (l : List Char) : List Char :=
  ((l.dropWhile isJsWs).reverse.dropWhile isJsWs).reverse

/-- Model of `String.prototype.trim`. -/
def jsTrim (s : String) : String :=
  String.mk (trimChars s.data)

/-! ### Stream parser (`parseAIResponse`, App.tsx 346-400)

The source splits the accumulated text with the capturing regex
`/(\[JUEZ\]:|\[MINISTERIO PÚBLICO\]:|\[DEFENSA\]:|\[TESTIGO\]:|\[SECRETARIO\]:)/g`
(which keeps the matched separators in the resulting array) and then filters
out empty strings.  `splitTags` below produces exactly that parts array. -/

/-- Characters of the tag token `[JUEZ]:`. -/
def tagJuez : List Char := ['[', 'J', 'U', 'E', 'Z', ']', ':']

/-- Characters of the tag token `[MINISTERIO PÚBLICO]:`. -/
def tagMP : List Char :=
  ['[', 'M', 'I', 'N', 'I', 'S', 'T', 'E', 'R', 'I', 'O', ' ', 'P', 'Ú', 'B', 'L', 'I', 'C', 'O', ']', ':']

/-- Characters of the tag token `[DEFENSA]:`. -/
def tagDef : List Char := ['[', 'D', 'E', 'F', 'E', 'N', 'S', 'A', ']', ':']

/-- Characters of the tag token `[TESTIGO]:`. -/
def tagTes : List Char := ['[', 'T', 'E', 'S', 'T', 'I', 'G', 'O', ']', ':']

/-- Characters of the tag token `[SECRETARIO]:`. -/
def tagSec : List Char := ['[', 'S', 'E', 'C', 'R', 'E', 'T', 'A', 'R', 'I', 'O', ']', ':']

/-- The tag token of each tagged speaker.  `PROFESOR` and `IMPUTADO` have no
tag in the split regex. -/
def tagChars? : Speaker → Option (List Char)
  | .Juez => some tagJuez
  | .MinisterioPublico => some tagMP
  | .Defensa => some tagDef
  | .Testigo => some tagTes
  | .Secretario => some tagSec
  | .Profesor => none
  | .Imputado => none

/-- Try to match one of the five tag tokens at the head of `cs`, in the
alternation order of the split regex; on success return the tag (as a string)
and the remaining characters. -/
def matchTagAt (cs : List Char) : Option (String × List Char) :=
  if tagJuez.isPrefixOf cs then some (String.mk tagJuez, cs.drop tagJuez.length)
  else if tagMP.isPrefixOf cs then some (String.mk tagMP, cs.drop tagMP.length)
  else if tagDef.isPrefixOf cs then some (String.mk tagDef, cs.drop tagDef.length)
  else if tagTes.isPrefixOf cs then some (String.mk tagTes, cs.drop tagTes.length)
  else if tagSec.isPrefixOf cs then some (String.mk tagSec, cs.drop tagSec.length)
  else none

/-- Core of the capturing split: scan left to right, emitting the accumulated
content (when non-empty, mirroring `.filter(Boolean)`) and the tag at each tag
occurrence.  `fuel` bounds the number of scanning steps; every step consumes
at least one character, so `fuel = cs.length` computes the full result. -/
def splitTagsAux : Nat → List Char → List Char → List String
  | _, acc, [] => if acc.isEmpty then [] else [String.mk acc.reverse]
  | 0, acc, _ :: _ => if acc.isEmpty then [] else [String.mk acc.reverse]
  | fuel + 1, acc, c :: rest =>
    match matchTagAt (c :: rest) with
    | some (t, after) =>
      (if acc.isEmpty then [] else [String.mk acc.reverse]) ++ t :: splitTagsAux fuel [] after
    | none => splitTagsAux fuel (c :: acc) rest

/-- `text.split(tagRegex).filter(Boolean)` of App.tsx line 348. -/
def splitTags (text : String) : List String :=
  splitTagsAux text.data.length [] text.data

/-- The trimmed-tag-to-speaker test of the main loop of `parseAIResponse`
(App.tsx 368-372): exact comparison against the five tag strings. -/
def tagSpeaker? (tag : String) : Option Speaker :=
  if tag = String.mk tagJuez then some .Juez
  else if tag = String.mk tagMP then some .MinisterioPublico
  else if tag = String.mk tagDef then some .Defensa
  else if tag = String.mk tagTes then some .Testigo
  else if tag = String.mk tagSec then some .Secretario
  else none

/-- Speaker chosen in the empty-content placeholder branch
(App.tsx 356-360): an if-chain over four tags with `TESTIGO` as the default. -/
def placeholderSpeaker (tag : String) : Speaker :=
  if tag = String.mk tagJuez then .Juez
  else if tag = String.mk tagMP then .MinisterioPublico
  else if tag = String.mk tagDef then .Defensa
  else if tag = String.mk tagSec then .Secretario
  else .Testigo

/-- Speaker of the first tag occurring anywhere in the text
(`text.match(tagRegex)` of App.tsx 387), mapped through the if-chain of
lines 390-394 whose default is `JUEZ`. -/
def firstSpeakerOf (t : String) : Speaker :=
  if t = String.mk tagMP then .MinisterioPublico
  else if t = String.mk tagDef then .Defensa
  else if t = String.mk tagTes then .Testigo
  else if t = String.mk tagSec then .Secretario
  else .Juez

/-- Find the first tag occurrence anywhere in `cs` and return its speaker
(per the `firstMessageMatch` branch of `parseAIResponse`). -/
def firstTagSpeaker : List Char → Option Speaker
  | [] => none
  | c :: rest =>
    match matchTagAt (c :: rest) with
    | some (t, _) => some (firstSpeakerOf t)
    | none => firstTagSpeaker rest

/-- JS falsiness of `parts[i+1]?.trim()`: `undefined` (no next part) or the
empty string. -/
def optFalsy : Option String → Bool
  | none => true
  | some s => s = ""

/-- Mutation `messages[messages.length - 1].text += tag` of App.tsx 384. -/
def appendToLast : List Utterance → String → List Utterance
  | [], _ => []
  | [m], t => [⟨m.speaker, m.text ++ t⟩]
  | m :: m2 :: rest, t => m :: appendToLast (m2 :: rest) t

/-- The indexed `for` loop of `parseAIResponse` (App.tsx 351-398), with the
mutable index/`i++` turned into list recursion: branches that execute the
inner `i++` (consuming the following part as content) recurse on the list two
positions further; when the inner `i++` runs past the end of the array the
loop simply terminates, which is inlined as returning the messages.
`tm` is `turnManagerRef.current` (the bound human role, when present);
`ft` is the speaker of the first tag found anywhere in the full text. -/
def parseLoop (tm : Option Speaker) (ft : Option Speaker) :
    List Utterance → List String → List Utterance
  | msgs, [] => msgs
  | msgs, p :: rest =>
    let tag := jsTrim p
    let content := rest.head?.map jsTrim
    if optFalsy content && (tagSpeaker? tag).isSome then
      -- `!content && tag is a recognised tag`: push an empty placeholder
      match rest with
      | [] => msgs ++ [⟨placeholderSpeaker tag, ""⟩]
      | _ :: rest2 => parseLoop tm ft (msgs ++ [⟨placeholderSpeaker tag, ""⟩]) rest2
    else if optFalsy content then
      -- `if (!content) continue`
      parseLoop tm ft msgs rest
    else
      match tagSpeaker? tag with
      | some sp =>
        if tm = some sp then
          -- anti-impersonation guard: `!turnManager.validateAIMessage(speaker)`
          match rest with
          | [] => msgs
          | _ :: rest2 => parseLoop tm ft msgs rest2
        else
          match rest with
          | [] => msgs ++ [⟨sp, content.getD ""⟩]
          | _ :: rest2 => parseLoop tm ft (msgs ++ [⟨sp, content.getD ""⟩]) rest2
      | none =>
        if msgs.isEmpty then
          if tag ≠ "" then
            -- text before the first tag, attributed to the first tag's speaker
            match ft with
            | some fs => parseLoop tm ft [⟨fs, tag⟩] rest
            | none => parseLoop tm ft msgs rest
          else
            parseLoop tm ft msgs rest
        else
          parseLoop tm ft (appendToLast msgs tag) rest

/-- `parseAIResponse` (App.tsx 346-400).  `tm` is the human role bound in the
`TurnManager` consulted by the anti-impersonation guard (`none` models a null
`turnManagerRef.current`). -/
def parseAIResponse (tm : Option Speaker) (text : String) : List Utterance :=
  parseLoop tm (firstTagSpeaker text.data) [] (splitTags text)

/-! ### Turn resolver (`parseTurnAndCleanText`, App.tsx 219-253)

Stage directive: regex `/\[ETAPA:\s*([^\]]+)\]/i` (case-insensitive, first
match replaced by the empty string).  Turn directive: regex
`/\[TURNO:\s*(Juez|Ministerio P[uú]blico|Defensa|Testigo|Secretario)\]\s*$/`
(no `i` flag, anchored at end of string); on a match the matched suffix is
removed and the text trimmed, and the captured label is compared — after
`toLowerCase()` and NFD normalization with combining marks stripped — against
the lowercased speaker labels. -/

/-- Model of `str.toLowerCase()` for the characters in play: ASCII letters
plus the accented Spanish capitals. -/
def jsToLowerChar (c : Char) : Char :=
  if c = 'Á' then 'á'
  else if c = 'É' then 'é'
  else if c = 'Í' then 'í'
  else if c = 'Ó' then 'ó'
  else if c = 'Ú' then 'ú'
  else if c = 'Ü' then 'ü'
  else if c = 'Ñ' then 'ñ'
  else c.toLower

/-- Model of `str.toLowerCase()`. -/
def jsToLower (s : String) : String :=
  String.mk (s.data.map jsToLowerChar)

/-- Model of `str.normalize("NFD").replace(/[̀-ͯ]/g, "")` for the
Spanish letters in play: each accented letter decomposes into its base letter
plus a combining mark, which the replace removes. -/
def stripDiacritic (c : Char) : Char :=
  if c = 'á' then 'a'
  else if c = 'é' then 'e'
  else if c = 'í' then 'i'
  else if c = 'ó' then 'o'
  else if c = 'ú' then 'u'
  else if c = 'ü' then 'u'
  else if c = 'ñ' then 'n'
  else if c = 'Á' then 'A'
  else if c = 'É' then 'E'
  else if c = 'Í' then 'I'
  else if c = 'Ó' then 'O'
  else if c = 'Ú' then 'U'
  else if c = 'Ü' then 'U'
  else if c = 'Ñ' then 'N'
  else c

/-- The `normalize` helper of App.tsx 243. -/
def normalizeJs (s : String) : String :=
  String.mk (s.data.map stripDiacritic)

/-- The if-chain of App.tsx 245-249 converting the captured, lowercased label
to a `Speaker` by accent-insensitive comparison. -/
def roleFromCapture (cap : String) : Option Speaker :=
  let roleStr := jsToLower cap
  if normalizeJs roleStr = normalizeJs (jsToLower (speakerLabel .Juez)) then some .Juez
  else if normalizeJs roleStr = normalizeJs (jsToLower (speakerLabel .MinisterioPublico)) then
    some .MinisterioPublico
  else if normalizeJs roleStr = normalizeJs (jsToLower (speakerLabel .Defensa)) then some .Defensa
  else if normalizeJs roleStr = normalizeJs (jsToLower (speakerLabel .Testigo)) then some .Testigo
  else if normalizeJs roleStr = normalizeJs (jsToLower (speakerLabel .Secretario)) then
    some .Secretario
  else none

/-- The label alternation `(Juez|Ministerio P[uú]blico|Defensa|Testigo|Secretario)`
tried at the head of `cs`; the alternatives start with pairwise distinct
characters, so at most one can match and no backtracking arises. -/
def matchLabel (cs : List Char) : Option (String × List Char) :=
  if "Juez".data.isPrefixOf cs then some ("Juez", cs.drop 4)
  else if "Ministerio Público".data.isPrefixOf cs then some ("Ministerio Público", cs.drop 18)
  else if "Ministerio Publico".data.isPrefixOf cs then some ("Ministerio Publico", cs.drop 18)
  else if "Defensa".data.isPrefixOf cs then some ("Defensa", cs.drop 7)
  else if "Testigo".data.isPrefixOf cs then some ("Testigo", cs.drop 7)
  else if "Secretario".data.isPrefixOf cs then some ("Secretario", cs.drop 10)
  else none

/-- Attempt the full anchored pattern `\[TURNO:\s*(labels)\]\s*$` starting
exactly at `cs`; returns the captured label on success.  The `\s*` before the
label is greedy and deterministic (labels start with letters, not
whitespace); the trailing `\s*$` forces the remainder to be whitespace. -/
def matchTurnToEnd (cs : List Char) : Option String :=
  if "[TURNO:".data.isPrefixOf cs then
    match matchLabel ((cs.drop 7).dropWhile isJsWs) with
    | some (lab, r2) =>
      match r2 with
      | ']' :: r3 => if r3.all isJsWs then some lab else none
      | _ => none
    | none => none
  else none

/-- Leftmost-match scan for the turn directive: returns the characters before
the match together with the captured label.  Since the pattern is anchored at
the end of the string, removing the match leaves exactly the prefix. -/
def turnScan (pre : List Char) : List Char → Option (List Char × String)
  | [] =>
    match matchTurnToEnd [] with
    | some lab => some (pre.reverse, lab)
    | none => none
  | c :: rest =>
    match matchTurnToEnd (c :: rest) with
    | some lab => some (pre.reverse, lab)
    | none => turnScan (c :: pre) rest

/-- Case-insensitive match of the literal `[ETAPA:` at the head of `cs`
(the stage regex carries the `i` flag). -/
def ciEtapa (cs : List Char) : Bool :=
  (cs.take 7).map jsToLowerChar = "[etapa:".data

/-- Split `cs` at the first `]`: the characters before it and those after.
Implements `[^\]]+\]` (a negated class matches any character, including
newlines, other than `]`). -/
def findCloseBracket : List Char → Option (List Char × List Char)
  | [] => none
  | c :: rest =>
    if c = ']' then some ([], rest)
    else (findCloseBracket rest).map (fun p => (c :: p.1, p.2))

/-- Attempt the stage pattern `\[ETAPA:\s*([^\]]+)\]` (case-insensitively)
starting exactly at `cs`: requires `[ETAPA:` then at least one non-`]`
character before a closing `]`.  Returns the segment between the colon and
the `]` and the characters after the `]`. -/
def matchStageAt (cs : List Char) : Option (List Char × List Char) :=
  if ciEtapa cs then
    match findCloseBracket (cs.drop 7) with
    | some (seg, after) => if seg.isEmpty then none else some (seg, after)
    | none => none
  else none

/-- Leftmost-match scan for the stage directive: returns the characters
before the match, the captured segment, and the characters after. -/
def stageScan (pre : List Char) : List Char → Option (List Char × List Char × List Char)
  | [] => none
  | c :: rest =>
    match matchStageAt (c :: rest) with
    | some (seg, after) => some (pre.reverse, seg, after)
    | none => stageScan (c :: pre) rest

/-- The stage-directive phase of `parseTurnAndCleanText` (App.tsx 224-229):
`text.replace(stageRegex, '')` together with the trimmed capture.  The
capture of `\s*([^\]]+)` trims to the same string as the whole segment, so
the detected stage is `jsTrim` of the segment. -/
def stagePhase (rawText : String) : String × Option String :=
  match stageScan [] rawText.data with
  | some (pre, seg, after) => (String.mk (pre ++ after), some (jsTrim (String.mk seg)))
  | none => (rawText, none)

/-- Result record of `parseTurnAndCleanText`. -/
structure TurnParseResult where
  cleanText : String
  nextTurn : Option Speaker
  detectedStage : Option String
deriving DecidableEq, Repr

/-- `parseTurnAndCleanText` (App.tsx 219-253): strip the first stage
directive, then — only if the anchored turn directive matches — remove it,
trim the text, and resolve the captured label to a speaker. -/
def parseTurnAndCleanText (rawText : String) : TurnParseResult :=
  let text1 := (stagePhase rawText).1
  let st := (stagePhase rawText).2
  match turnScan [] text1.data with
  | some pr => ⟨jsTrim (String.mk pr.1), roleFromCapture pr.2, st⟩
  | none => ⟨text1, none, st⟩

/-- Substring occurrence test (`String.prototype.includes` over char lists). -/
def containsSeq (pat : List Char) : List Char → Bool
  | [] => pat.isEmpty
  | c :: rest => pat.isPrefixOf (c :: rest) || containsSeq pat rest

/-! ### Turn manager (`src/utils/turnManager.ts`)

The `TurnManager` class holds only the immutable bound human role; its
methods are modelled as functions taking that role as first argument. -/

/-- The four-valued `TurnState` enum of turnManager.ts. -/
inductive TurnState where
  | AI_TURN
  | USER_TURN
  | OBJECTION_PHASE
  | LOADING
deriving DecidableEq, Repr, Fintype

/-- `TurnManager.isUserSpeaker`. -/
def isUserSpeaker (userRole speaker : Speaker) : Bool :=
  speaker = userRole

/-- `TurnManager.isAISpeaker`: every speaker other than the bound human role
and `PROFESOR`. -/
def isAISpeaker (userRole speaker : Speaker) : Bool :=
  speaker ≠ userRole && speaker ≠ Speaker.Profesor

/-- `TurnManager.validateAIMessage`: false exactly when the speaker is the
bound human role. -/
def validateAIMessage (userRole speaker : Speaker) : Bool :=
  !(isUserSpeaker userRole speaker)

/-- `TurnManager.computeTurnState` (turnManager.ts 77-111): the sequential
if-chain over the objection flag, the loading flag, the audio-playing flag,
the explicit `IMPUTADO` safety net, and the nominal speaker. -/
def computeTurnState (userRole : Speaker) (currentTurn : Option Speaker)
    (isLoading isSpeaking isObjectionPhase : Bool) : TurnState :=
  if isObjectionPhase then .OBJECTION_PHASE
  else if isLoading then .LOADING
  else if isSpeaking then .AI_TURN
  else
    match currentTurn with
    | some t =>
      if t = Speaker.Imputado then .AI_TURN
      else if !(isUserSpeaker userRole t) then .AI_TURN
      else if isUserSpeaker userRole t then .USER_TURN
      else .AI_TURN
    | none => .AI_TURN

/-- Restatement of the specified priority order of `computeTurnState`, taken
from the spec text (first match wins): objection-phase, loading,
audio-playing, AI-only nominal speaker (including the reserved
Defendant/`IMPUTADO` role), nominal speaker equal to the human role, and an
`AI_TURN` fallback covering the null nominal speaker.  Used only to compare
against the source-derived `computeTurnState`. -/
def computeTurnStateSpec (userRole : Speaker) (currentTurn : Option Speaker)
    (isLoading isSpeaking isObjectionPhase : Bool) : TurnState :=
  if isObjectionPhase then .OBJECTION_PHASE
  else if isLoading then .LOADING
  else if isSpeaking then .AI_TURN
  else
    match currentTurn with
    | some t =>
      if t = Speaker.Imputado ∨ t ≠ userRole then .AI_TURN
      else if t = userRole then .USER_TURN
      else .AI_TURN
    | none => .AI_TURN

/-! ### Orchestrator turn resolution (App.tsx)

`processAIStream` (lines 476-487) resolves the parsed `nextTurn` to an
always-valid current turn; `handleStartSimulation` (lines 309-316) sets the
current turn directly from the resolver on the initial stream.  The
simulation config is modelled as present, with `userRole` its bound role
(the source falls back to `Speaker.DEFENSA` when the config is null). -/

/-- The turn-resolution tail of `processAIStream`: a missing directive, or a
directive that is neither a user speaker nor an AI speaker, falls back to the
human's bound role. -/
def resolveNextTurnAfterStream (userRole : Speaker) (nextTurn : Option Speaker) : Speaker :=
  match nextTurn with
  | none => userRole
  | some t =>
    if isUserSpeaker userRole t then t
    else if isAISpeaker userRole t then t
    else userRole

/-- The current turn set at the end of the initial stream of
`handleStartSimulation` (App.tsx 309-316): `null` in the objection branch,
otherwise the resolver's `nextTurn` verbatim — with no fallback. -/
def handleStartSimulationFinalTurn (accumulatedText : String) : Option Speaker :=
  if containsSeq "[PAUSA_PARA_OBJECION]".data accumulatedText.data then none
  else (parseTurnAndCleanText accumulatedText).nextTurn

/-! ### Narration queue (`src/services/audioService.ts`)

The `AudioService` singleton state is the record `AudioState`; the pending
`waitForQueueCompletion` callbacks are counted rather than stored, with a
companion counter of resolved waiters; `URL.revokeObjectURL` is modelled by
accumulating the released URLs; the HTML audio element is modelled by its
URL, volume, and position.  Speech synthesis is an oracle function argument
(the network call of `generateSpeechWithRetry`). -/

/-- A queued narration item (`AudioQueueItem`, with the random queue id
omitted). -/
structure QItem where
  text : String
  speaker : Speaker
  messageId : Option String
  audioUrl : Option String
deriving DecidableEq, Repr

/-- The mutable fields of the `AudioService` singleton used by the queue. -/
structure AudioState where
  queue : List QItem
  isPlaying : Bool
  isPaused : Bool
  isMuted : Bool
  isProcessingQueue : Bool
  isQueueActive : Bool
  totalQueuedDialogues : Nat
  completedDialogues : Nat
  failedDialogues : Nat
  pendingWaiters : Nat
  resolvedWaiters : Nat
  currentMessageId : Option String
  replayBuffer : List QItem
  revokedUrls : List String
  currentAudio : Option String
  currentVolume : Nat
  playbackPos : Nat
deriving DecidableEq, Repr

/-- A freshly constructed `AudioService`. -/
def initState : AudioState :=
  ⟨[], false, false, false, false, false, 0, 0, 0, 0, 0, none, [], [], none, 1, 0⟩

/-- `AudioService.resetQueue`: resets counters, callbacks, current message id
and replay buffer, and clears the active flag (the queue list itself is not
touched by the source). -/
def resetQueue (s : AudioState) : AudioState :=
  { s with totalQueuedDialogues := 0, completedDialogues := 0, failedDialogues := 0,
           pendingWaiters := 0, currentMessageId := none, replayBuffer := [],
           isQueueActive := false }

/-- Scan for the closing delimiter of a lazy `.*?` group: the JS dot does not
match line terminators, so a newline before the closing delimiter means no
match starts here.  Returns the characters after the closing delimiter. -/
def findCloseNoNl (closeC : Char) : List Char → Option (List Char)
  | [] => none
  | c :: rest =>
    if c = closeC then some rest
    else if c = '\n' || c = '\r' || c = ' ' || c = ' ' then none
    else findCloseNoNl closeC rest

/-- Global replace of `openC .*? closeC` by the empty string: at each
position, if an opening delimiter with a closing one on the same line starts
here, drop the whole group and continue after it; otherwise keep the
character.  `fuel` bounds the steps (each consumes at least one character). -/
def stripDelimitedAux (openC closeC : Char) : Nat → List Char → List Char
  | _, [] => []
  | 0, l => l
  | fuel + 1, c :: rest =>
    if c = openC then
      match findCloseNoNl closeC rest with
      | some after => stripDelimitedAux openC closeC fuel after
      | none => c :: stripDelimitedAux openC closeC fuel rest
    else c :: stripDelimitedAux openC closeC fuel rest

/-- Left-to-right non-overlapping removal of `**` (`.replace(/\*\*/g, '')`). -/
def stripDoubleStar : List Char → List Char
  | '*' :: '*' :: rest => stripDoubleStar rest
  | c :: rest => c :: stripDoubleStar rest
  | [] => []

/-- `AudioService.cleanTextForSpeech` (audioService.ts 292-299): remove
bracketed groups, `**`, `*`, parenthesised groups, then trim. -/
def cleanTextForSpeech (text : String) : String :=
  let s1 := stripDelimitedAux '[' ']' text.data.length text.data
  let s2 := stripDoubleStar s1
  let s3 := s2.filter (fun c => c ≠ '*')
  let s4 := stripDelimitedAux '(' ')' s3.length s3
  String.mk (trimChars s4)

/-- `AudioService.speak` (audioService.ts 465-485): clean the text; if the
cleaned text is empty, do nothing; otherwise push a fresh queue item,
increment the total counter, and mark the queue active.  (Triggering
`processQueue` is modelled separately by applying `processQueue` to the
resulting state.) -/
def speak (text : String) (sp : Speaker) (mid : Option String) (s : AudioState) : AudioState :=
  let cleanText := cleanTextForSpeech text
  if cleanText = "" then s
  else
    { s with queue := s.queue ++ [⟨cleanText, sp, mid, none⟩],
             totalQueuedDialogues := s.totalQueuedDialogues + 1,
             isQueueActive := true }

/-- The retry loop of `generateSpeechWithRetry` (audioService.ts 350-442)
abstracted over the per-attempt synthesis outcome: the first successful
attempt's URL is returned; after the last allowed attempt fails the whole
synthesis returns null.  (On every failed non-final attempt the source picks
the next fallback voice and continues, which only changes which voice the
next attempt uses — folded here into the attempt oracle.) -/
def retryAttempts (attemptResult : Nat → Option String) : Nat → Nat → Option String
  | 0, attempt => attemptResult attempt
  | remaining + 1, attempt =>
    match attemptResult attempt with
    | some url => some url
    | none => retryAttempts attemptResult remaining (attempt + 1)

/-- `AudioService.generateSpeechWithRetry` (audioService.ts 337-445):
missing API key or missing voice configuration yield null immediately;
otherwise attempts `0..maxRetries` are tried in order (`maxRetries = 2`
at every call site). -/
def generateSpeechWithRetry (hasApiKey hasVoiceConfig : Bool)
    (attemptResult : Nat → Option String) (maxRetries : Nat) : Option String :=
  if !hasApiKey then none
  else if !hasVoiceConfig then none
  else retryAttempts attemptResult maxRetries 0

/-- `AudioService.addToReplayBuffer`: push and drop the oldest item beyond
`maxReplaySize = 5`. -/
def pushReplay (buf : List QItem) (it : QItem) : List QItem :=
  let b := buf ++ [it]
  if b.length > 5 then b.tail else b

/-- `AudioService.preloadNextAudio` (audioService.ts 611-622) applied to the
tail of the queue: synthesize the second queue item's audio in advance if it
has none.  The synthesis oracle `synth` is a function of the item's text and
speaker, exactly the arguments the source passes to
`generateSpeechWithRetry`.  (The source runs the preload concurrently with
playback of the head item; with a deterministic synthesis oracle the
sequential model is equivalent.) -/
def preloadNext (synth : String → Speaker → Option String) : List QItem → List QItem
  | [] => []
  | it :: rest =>
    if it.audioUrl.isSome then it :: rest
    else { it with audioUrl := synth it.text it.speaker } :: rest

/-- The `while` loop of `AudioService.processQueue` (audioService.ts
542-593): take the head item; synthesize its audio if not cached; on
synthesis failure count it failed, drop it and continue; otherwise preload
the next item, mark the current message id for the duration of playback,
append the item to the replay buffer, play it (volume per the mute flag),
count it completed, clear the message id, drop it from the queue and revoke
its URL.  The pause poll-wait of lines 546-548 is not modelled (the loop only
proceeds once unpaused).  `fuel` bounds the iterations (each removes one
item; preloading preserves the queue length), so `fuel = queue.length`
drains the queue.  The epilogue of lines 595-605 (clear the
processing/playing/active flags, then — when every queued dialogue has been
completed or failed — resolve all pending completion callbacks) is
`finishQueue`. -/
def finishQueue (s : AudioState) : AudioState :=
  let s1 := { s with isProcessingQueue := false, isPlaying := false, isQueueActive := false }
  if s1.completedDialogues + s1.failedDialogues = s1.totalQueuedDialogues then
    { s1 with resolvedWaiters := s1.resolvedWaiters + s1.pendingWaiters, pendingWaiters := 0 }
  else s1

/-- See the comment on `finishQueue` just above: the drain loop itself. -/
def processQueueLoop (synth : String → Speaker → Option String) : Nat → AudioState → AudioState
  | fuel, s =>
    match s.queue, fuel with
    | [], _ => finishQueue s
    | _ :: _, 0 => s
    | item :: rest, fuel' + 1 =>
      match item.audioUrl.or (synth item.text item.speaker) with
      | none =>
        processQueueLoop synth fuel'
          { s with failedDialogues := s.failedDialogues + 1, queue := rest }
      | some url =>
        processQueueLoop synth fuel'
          { s with queue := preloadNext synth rest,
                   completedDialogues := s.completedDialogues + 1,
                   currentMessageId := none,
                   replayBuffer := pushReplay s.replayBuffer { item with audioUrl := some url },
                   revokedUrls := s.revokedUrls ++ [url],
                   currentAudio := none,
                   isPlaying := false,
                   currentVolume := if s.isMuted then 0 else 1,
                   playbackPos := 0 }

/-- `AudioService.processQueue` entry (audioService.ts 539-540 and 595-605):
re-entry is a no-op while a loop is already processing. -/
def processQueue (synth : String → Speaker → Option String) (s : AudioState) : AudioState :=
  if s.isProcessingQueue then s
  else processQueueLoop synth s.queue.length { s with isProcessingQueue := true }

/-- `AudioService.cancel` (audioService.ts 672-703): stop and drop the
current audio, revoke every queued item's cached URL, empty the queue, clear
the playing/paused/active flags, and resolve every pending completion
callback (cancellation counts as completion). -/
def cancel (s : AudioState) : AudioState :=
  { s with currentAudio := none,
           revokedUrls := s.revokedUrls ++ s.queue.filterMap (fun it => it.audioUrl),
           queue := [],
           isPlaying := false,
           isPaused := false,
           isQueueActive := false,
           resolvedWaiters := s.resolvedWaiters + s.pendingWaiters,
           pendingWaiters := 0 }

/-- `AudioService.waitForQueueCompletion` (audioService.ts 222-233): resolve
immediately (second component `true`) when the queue is inactive and empty;
otherwise register one more pending callback. -/
def waitForQueueCompletion (s : AudioState) : AudioState × Bool :=
  if s.isQueueActive = false ∧ s.queue = [] then (s, true)
  else ({ s with pendingWaiters := s.pendingWaiters + 1 }, false)

/-- `AudioService.setMuted` (audioService.ts 821-828): record the mute flag
and, when an audio element is playing, set its volume accordingly; nothing
else is touched. -/
def setMuted (muted : Bool) (s : AudioState) : AudioState :=
  { s with isMuted := muted,
           currentVolume :=
             if s.currentAudio.isSome then (if muted then 0 else 1) else s.currentVolume }

/-! ### Well-formed tag+content compositions

The spec quantifies several parser properties over "accumulated texts
composed only of well-formed tag+content pairs".  `composePairs` builds such
a text from a list of (speaker, content) pairs; `WellFormedPairs` is the
well-formedness side condition: every speaker has a tag token, every content
block is non-empty after trimming, and no content block contains `[` (so no
tag, nor any fragment that could combine into one, occurs inside content). -/

/-- Characters of the concatenation `tag₁ ++ content₁ ++ tag₂ ++ content₂ ++ …`. -/
def composeChars : List (Speaker × String) → List Char
  | [] => []
  | (sp, c) :: rest => ((tagChars? sp).getD []) ++ c.data ++ composeChars rest

/-- The accumulated text composed of the given tag+content pairs. -/
def composePairs (pairs : List (Speaker × String)) : String :=
  String.mk (composeChars pairs)

/-- Well-formedness of a tag+content pair list (see the section comment). -/
def WellFormedPairs (pairs : List (Speaker × String)) : Prop :=
  ∀ p ∈ pairs, (tagChars? p.1).isSome ∧ jsTrim p.2 ≠ "" ∧ ∀ ch ∈ p.2.data, ch ≠ '['

instance (pairs : List (Speaker × String)) : Decidable (WellFormedPairs pairs) := by
  unfold WellFormedPairs
  infer_instance

/-- The parts array the capturing split produces on a well-formed
composition: the tag string then the content string of each pair, in order. -/
def partsOf : List (Speaker × String) → List String
  | [] => []
  | (sp, c) :: rest => String.mk ((tagChars? sp).getD []) :: c :: partsOf rest

/-- The utterances the parser keeps from a well-formed composition when the
human role is `u`: one utterance per pair with trimmed content, except that
pairs whose speaker is `u` are discarded by the anti-impersonation guard. -/
def keptPairs (u : Speaker) : List (Speaker × String) → List Utterance
  | [] => []
  | (sp, c) :: rest =>
    if sp = u then keptPairs u rest else ⟨sp, jsTrim c⟩ :: keptPairs u rest

/-- One utterance per pair, in order, with trimmed content. -/
def utterancesOf : List (Speaker × String) → List Utterance
  | [] => []
  | (sp, c) :: rest => ⟨sp, jsTrim c⟩ :: utterancesOf rest

/-- Enqueue a batch of messages through `speak` (text, speaker, message id),
left to right. -/
def speakAll (msgs : List (String × Speaker × Option String)) (s : AudioState) : AudioState :=
  msgs.foldl (fun st m => speak m.1 m.2.1 m.2.2 st) s

/-- The queue item `speak` pushes for a message whose cleaned text is
non-empty. -/
def mkSpeakItem (m : String × Speaker × Option String) : QItem :=
  ⟨cleanTextForSpeech m.1, m.2.1, m.2.2, none⟩

/-! ## Claim theorems -/

/-- Claim C2: `computeTurnState` is a pure function of its four arguments
(purity is intrinsic to the Lean embedding) and applies the specified
first-match-wins priority order — objection phase, loading, audio playing
(always `AI_TURN`), AI-only nominal speaker including the reserved
`IMPUTADO` role (always `AI_TURN`), nominal speaker equal to the human role
(`USER_TURN`), and an `AI_TURN` fallback covering the null nominal speaker.
Stated as extensional equality with `computeTurnStateSpec`, the definition
transcribed from the spec text. -/
theorem c2_computeTurnState_matches_spec :
    ∀ (u : Speaker) (ct : Option Speaker) (l sp o : Bool),
      computeTurnState u ct l sp o = computeTurnStateSpec u ct l sp o := by
  decide

/-- Claim C3, evaluation at the failing input: `processAIStream`'s resolution
does fall back to the human's bound role on a missing directive (first
conjunct), but on the initial stream `handleStartSimulation` stores the raw
resolver result, so a completed initial stream with no trailing turn
directive leaves the current turn `null` instead of the human's role
(second conjunct) — contradicting the claimed guarantee. -/
theorem c3_initial_stream_no_fallback :
    (∀ u : Speaker, resolveNextTurnAfterStream u none = u) ∧
    handleStartSimulationFinalTurn "[JUEZ]: Bienvenidos a la audiencia." = none := by
  exact ⟨fun u => rfl, by decide⟩

/-- Claim C4, counterexample: the claim says a trailing directive whose label
is written in a different letter case than the canonical role name still
resolves to the corresponding speaker, but the all-caps label `JUEZ` does not
resolve — the turn regex has no `i` flag, so the capture alternatives are
case-sensitive. -/
theorem c4_counterexample_case_sensitive_label :
    (parseTurnAndCleanText "Hola. [TURNO: JUEZ]").nextTurn = none := by decide

/-- Claim C4 as amended: the directive keyword must match exactly and the
label must match one of the canonical spellings exactly in letter case; the
only tolerated variation is the accent in `Ministerio Público`, which may
also be written `Ministerio Publico` — only then do the resolver's
lowercasing and diacritic-stripping comparisons apply to the captured label.
A label in a different case, a lowercased keyword, or a non-trailing
directive is not recognized. -/
theorem c4_amended_label_matching :
    parseTurnAndCleanText "Se concede la palabra. [TURNO: Juez]"
      = ⟨"Se concede la palabra.", some Speaker.Juez, none⟩ ∧
    (parseTurnAndCleanText "X [TURNO: Ministerio Publico]").nextTurn
      = some Speaker.MinisterioPublico ∧
    (parseTurnAndCleanText "X [TURNO: Ministerio Público]").nextTurn
      = some Speaker.MinisterioPublico ∧
    (parseTurnAndCleanText "X [TURNO: juez]").nextTurn = none ∧
    (parseTurnAndCleanText "X [turno: Juez]").nextTurn = none ∧
    (parseTurnAndCleanText "X [TURNO: Defensa] y algo más").nextTurn = none := by
  decide

/-- Claim C5, counterexample: resolving a text that ends with two stacked
turn directives strips only the final one, so re-resolving the cleaned text
yields `Juez`, not `null` — turn-directive extraction is not idempotent. -/
theorem c5_counterexample_stacked_directives :
    (parseTurnAndCleanText ((parseTurnAndCleanText
      "Continúe. [TURNO: Juez] [TURNO: Juez]").cleanText)).nextTurn
      = some Speaker.Juez := by decide

/-- Claim C1, counterexample: an utterance whose speaker equals the bound
human role can appear in the parser's output.  First conjunct: a trailing
human tag with no following content yields an empty placeholder utterance
attributed to the human (the placeholder branch does not consult the guard).
Second conjunct: content following a discarded human tag can even be
appended to a previously pushed human placeholder, surfacing impersonated
text. -/
theorem c1_counterexample_placeholder_impersonation :
    (⟨Speaker.Defensa, ""⟩ : Utterance) ∈
      parseAIResponse (some Speaker.Defensa) "[DEFENSA]:" ∧
    (⟨Speaker.Defensa, "hi"⟩ : Utterance) ∈
      parseAIResponse (some Speaker.Defensa)
        "[JUEZ]:x[DEFENSA]: [DEFENSA]:[JUEZ]: hi[TESTIGO]: ok" := by
  decide

/-- Claim C8: `cancel()` stops current playback, discards the entire
remaining queue, releases the cached audio resources of the queued items,
resets the paused flag, and resolves every pending `waitForQueueCompletion`
promise; and `waitForQueueCompletion` resolves immediately whenever the
queue is empty and inactive (in particular right after a cancel). -/
theorem c8_cancel_contract :
    ∀ s : AudioState,
      (cancel s).currentAudio = none ∧
      (cancel s).queue = [] ∧
      (cancel s).revokedUrls = s.revokedUrls ++ s.queue.filterMap (fun it => it.audioUrl) ∧
      (cancel s).isPaused = false ∧
      (cancel s).pendingWaiters = 0 ∧
      (cancel s).resolvedWaiters = s.resolvedWaiters + s.pendingWaiters ∧
      (waitForQueueCompletion (cancel s)).2 = true ∧
      (s.queue = [] → s.isQueueActive = false → waitForQueueCompletion s = (s, true)) := by
  intro s
  refine ⟨rfl, rfl, rfl, rfl, rfl, rfl, ?_, ?_⟩
  · simp [waitForQueueCompletion, cancel]
  · intro h1 h2
    simp [waitForQueueCompletion, h1, h2]

/-- Witness for C8 at a concrete state: two waiters are pending while the
queue is empty and inactive, and `waitForQueueCompletion` resolves
immediately. -/
theorem c8_witness :
    waitForQueueCompletion { initState with pendingWaiters := 2 }
      = ({ initState with pendingWaiters := 2 }, true) :=
  (c8_cancel_contract { initState with pendingWaiters := 2 }).2.2.2.2.2.2.2 rfl rfl

/-- Claim C10: for every input whose cleaned form is empty after removing
bracketed content, parenthesised content, and asterisks, `speak()` is a
no-op — nothing is appended to the queue, the counters are unchanged, and
the queue-active flag is not set. -/
theorem c10_speak_noop_on_empty_clean :
    ∀ (text : String) (sp : Speaker) (mid : Option String) (s : AudioState),
      cleanTextForSpeech text = "" → speak text sp mid s = s := by
  intro text sp mid s h
  simp [speak, h]

/-- Witness for C10: a message consisting only of stage directions cleans to
the empty string, and speaking it leaves the fresh state unchanged. -/
theorem c10_witness :
    speak "*(Se pone de pie)* [pausa larga]" Speaker.Juez none initState = initState :=
  c10_speak_noop_on_empty_clean "*(Se pone de pie)* [pausa larga]" Speaker.Juez none initState
    (by decide)

/-- A successful anchored turn match starts with the literal `[TURNO:`. -/
lemma matchTurnToEnd_isPrefixOf {cs : List Char} {lab : String}
    (h : matchTurnToEnd cs = some lab) : "[TURNO:".data.isPrefixOf cs = true := by
  by_cases hp : "[TURNO:".data.isPrefixOf cs
  · exact hp
  · simp [matchTurnToEnd, hp] at h

/-- If the turn-directive scan finds a match, the scanned text contains the
literal `[TURNO:`. -/
lemma turnScan_containsSeq :
    ∀ (cs : List Char) (pre : List Char) (r : List Char × String),
      turnScan pre cs = some r → containsSeq "[TURNO:".data cs = true := by
  intro cs
  induction cs with
  | nil =>
    intro pre r h
    have hm : matchTurnToEnd [] = none := by decide
    simp [turnScan, hm] at h
  | cons c rest ih =>
    intro pre r h
    cases hm : matchTurnToEnd (c :: rest) with
    | some lab =>
      simp [containsSeq, matchTurnToEnd_isPrefixOf hm]
    | none =>
      simp only [turnScan, hm] at h
      simp [containsSeq, ih (c :: pre) r h]

/-- A text whose stage-stripped form does not contain `[TURNO:` resolves to
no next speaker. -/
lemma nextTurn_none_of_no_directive :
    ∀ s : String,
      containsSeq "[TURNO:".data ((stagePhase s).1).data = false →
      (parseTurnAndCleanText s).nextTurn = none := by
  intro s h
  cases hts : turnScan [] ((stagePhase s).1).data with
  | none => simp [parseTurnAndCleanText, hts]
  | some pr =>
    have := turnScan_containsSeq _ _ _ hts
    rw [h] at this
    exact absurd this (by simp)

/-- Claim C5 as amended: turn-directive extraction is idempotent whenever the
once-cleaned text, after stage-directive removal, no longer contains the
literal directive opener `[TURNO:`.  (In general idempotence fails: the
anchored regex strips only the final trailing directive, so stacked trailing
directives survive one resolution — see the counterexample.) -/
theorem c5_amended_idempotent_without_leftover_directive :
    ∀ t : String,
      containsSeq "[TURNO:".data
        ((stagePhase ((parseTurnAndCleanText t).cleanText)).1).data = false →
      (parseTurnAndCleanText ((parseTurnAndCleanText t).cleanText)).nextTurn = none := by
  intro t h
  exact nextTurn_none_of_no_directive _ h

/-- Witness for the amended C5: a single-directive text resolves, and
re-resolving its cleaned text yields no next speaker. -/
theorem c5_witness :
    (parseTurnAndCleanText ((parseTurnAndCleanText
      "Caso uno. [TURNO: Defensa]").cleanText)).nextTurn = none :=
  c5_amended_idempotent_without_leftover_directive "Caso uno. [TURNO: Defensa]" (by decide)

/-! ### Structure lemmas for the stream parser on well-formed compositions -/

lemma isPrefixOf_append_self : ∀ (l xs : List Char), l.isPrefixOf (l ++ xs) = true := by
  intro l xs
  induction l with
  | nil => simp [List.isPrefixOf]
  | cons a as ih => simp [List.isPrefixOf, ih]

lemma not_isPrefixOf_of_ne2 (a b : Char) (l1 l2 xs : List Char) (h : a ≠ b) :
    ('[' :: a :: l1).isPrefixOf (('[' :: b :: l2) ++ xs) = false := by
  simp [List.isPrefixOf, h]

/-- At the start of a tag token, `matchTagAt` recognises exactly that tag:
the five tokens differ pairwise in their second character. -/
lemma matchTagAt_at_tag :
    ∀ (sp : Speaker) (tc : List Char), tagChars? sp = some tc →
      ∀ xs, matchTagAt (tc ++ xs) = some (String.mk tc, xs) := by
  intro sp tc htc xs
  cases sp <;> simp [tagChars?] at htc <;> subst htc <;>
    simp [matchTagAt, tagJuez, tagMP, tagDef, tagTes, tagSec,
      isPrefixOf_append_self, not_isPrefixOf_of_ne2, List.isPrefixOf, List.drop_left]

/-- All five tag tokens start with `[`, so no tag starts at another
character. -/
lemma matchTagAt_none_head (c : Char) (rest : List Char) (h : c ≠ '[') :
    matchTagAt (c :: rest) = none := by
  have h2 : '[' ≠ c := fun e => h e.symm
  simp [matchTagAt, tagJuez, tagMP, tagDef, tagTes, tagSec, List.isPrefixOf, h2]

lemma matchTagAt_some_len {c : Char} {rest : List Char} {t : String} {after : List Char}
    (h : matchTagAt (c :: rest) = some (t, after)) : after.length ≤ rest.length := by
  simp only [matchTagAt] at h
  split_ifs at h <;>
    · rw [Option.some_inj, Prod.ext_iff] at h
      obtain ⟨h1, h2⟩ := h
      subst h2
      simp [tagJuez, tagMP, tagDef, tagTes, tagSec]

lemma splitTagsAux_nil : ∀ (fuel : Nat) (acc : List Char),
    splitTagsAux fuel acc [] = if acc.isEmpty then [] else [String.mk acc.reverse] := by
  intro fuel acc
  cases fuel <;> rfl

/-- The splitter's fuel is irrelevant as long as it covers the input length
(each step consumes at least one character). -/
lemma splitTagsAux_fuel_irrel :
    ∀ (fuel fuel2 : Nat) (acc cs : List Char),
      cs.length ≤ fuel → cs.length ≤ fuel2 →
      splitTagsAux fuel acc cs = splitTagsAux fuel2 acc cs := by
  intro fuel
  induction fuel with
  | zero =>
    intro fuel2 acc cs h1 h2
    have : cs = [] := List.length_eq_zero.mp (Nat.le_zero.mp h1)
    subst this
    rw [splitTagsAux_nil, splitTagsAux_nil]
  | succ fuel ih =>
    intro fuel2 acc cs h1 h2
    cases cs with
    | nil => rw [splitTagsAux_nil, splitTagsAux_nil]
    | cons c rest =>
      cases fuel2 with
      | zero => simp at h2
      | succ fuel2 =>
        simp only [splitTagsAux]
        cases hm : matchTagAt (c :: rest) with
        | some pr =>
          obtain ⟨t, after⟩ := pr
          have hlen := matchTagAt_some_len hm
          simp only []
          rw [ih fuel2 [] after (by simp at h1; omega) (by simp at h2; omega)]
        | none =>
          exact ih fuel2 (c :: acc) rest (by simp at h1; omega) (by simp at h2; omega)

/-- Scanning a bracket-free content block just accumulates its characters. -/
lemma splitTagsAux_content :
    ∀ (cl : List Char), (∀ ch ∈ cl, ch ≠ '[') →
      ∀ (acc xs : List Char),
        splitTagsAux (cl.length + xs.length) acc (cl ++ xs)
          = splitTagsAux xs.length (cl.reverse ++ acc) xs := by
  intro cl
  induction cl with
  | nil => intro h acc xs; simp
  | cons ch cl ih =>
    intro h acc xs
    have hch : ch ≠ '[' := h ch (by simp)
    have hlen : (ch :: cl).length + xs.length = (cl.length + xs.length) + 1 := by simp; omega
    rw [hlen]
    show splitTagsAux ((cl.length + xs.length) + 1) acc ((ch :: cl) ++ xs)
      = splitTagsAux xs.length ((ch :: cl).reverse ++ acc) xs
    rw [List.cons_append]
    simp only [splitTagsAux, matchTagAt_none_head ch (cl ++ xs) hch]
    rw [ih (fun x hx => h x (by simp [hx])) (ch :: acc) xs]
    simp

lemma matchTagAt_nil : matchTagAt [] = none := by decide

/-- A non-empty accumulator is emitted as one part when the scan reaches the
end of the input or the start of a tag. -/
lemma splitTagsAux_flush :
    ∀ (acc xs : List Char) (fuel : Nat), acc ≠ [] →
      (xs = [] ∨ (∃ t after, matchTagAt xs = some (t, after))) →
      splitTagsAux fuel acc xs = String.mk acc.reverse :: splitTagsAux fuel [] xs := by
  intro acc xs fuel hacc hxs
  have hne : acc.isEmpty = false := by
    cases acc with
    | nil => exact absurd rfl hacc
    | cons a as => rfl
  rcases hxs with h | ⟨t, after, hm⟩
  · subst h
    rw [splitTagsAux_nil, splitTagsAux_nil]
    simp [hne]
  · cases xs with
    | nil => rw [matchTagAt_nil] at hm; exact absurd hm (by simp)
    | cons x xs2 =>
      cases fuel with
      | zero => simp [splitTagsAux, hne]
      | succ fuel =>
        simp only [splitTagsAux, hm, hne]
        simp

lemma tagChars?_ne_nil {sp : Speaker} {tc : List Char} (h : tagChars? sp = some tc) :
    tc ≠ [] := by
  cases sp <;> simp [tagChars?] at h <;> subst h <;>
    simp [tagJuez, tagMP, tagDef, tagTes, tagSec]

lemma data_ne_nil_of_trim {c : String} (h : jsTrim c ≠ "") : c.data ≠ [] := by
  intro he
  apply h
  have : c = "" := by
    cases c with
    | mk d => simp at he; simp [he]
  simp [this]
  decide

/-- On a well-formed composition the capturing split recovers exactly the
alternating tag/content parts array. -/
lemma split_composeChars :
    ∀ pairs : List (Speaker × String), WellFormedPairs pairs →
      splitTagsAux (composeChars pairs).length [] (composeChars pairs) = partsOf pairs := by
  intro pairs
  induction pairs with
  | nil => intro _; rfl
  | cons hd rest ih =>
    intro hwf
    obtain ⟨sp, c⟩ := hd
    have hhd := hwf (sp, c) (by simp)
    obtain ⟨hsome, htrim, hnb⟩ := hhd
    obtain ⟨tc, htc⟩ := Option.isSome_iff_exists.mp hsome
    have hrest : WellFormedPairs rest := fun p hp => hwf p (by simp [hp])
    have hcompose : composeChars ((sp, c) :: rest) = tc ++ (c.data ++ composeChars rest) := by
      simp [composeChars, htc]
    rw [hcompose]
    obtain ⟨tch, tct, htcc⟩ : ∃ a l, tc = a :: l := by
      cases tc with
      | nil => exact absurd rfl (tagChars?_ne_nil htc)
      | cons a l => exact ⟨a, l, rfl⟩
    have hlen1 : (tc ++ (c.data ++ composeChars rest)).length
        = (tct ++ (c.data ++ composeChars rest)).length + 1 := by
      subst htcc; simp
    rw [hlen1, htcc, List.cons_append]
    simp only [splitTagsAux]
    rw [show tch :: (tct ++ (c.data ++ composeChars rest))
        = tc ++ (c.data ++ composeChars rest) by rw [htcc, List.cons_append]]
    rw [matchTagAt_at_tag sp tc htc]
    simp only [List.isEmpty_nil, if_true]
    have hf1 : splitTagsAux (tct ++ (c.data ++ composeChars rest)).length []
          (c.data ++ composeChars rest)
        = splitTagsAux (c.data ++ composeChars rest).length []
          (c.data ++ composeChars rest) := by
      apply splitTagsAux_fuel_irrel <;> simp
    rw [hf1]
    have hf2 : (c.data ++ composeChars rest).length
        = c.data.length + (composeChars rest).length := by
      simp
    rw [hf2, splitTagsAux_content c.data (fun ch hch => hnb ch hch) [] (composeChars rest)]
    rw [List.append_nil]
    have hflush : splitTagsAux (composeChars rest).length c.data.reverse (composeChars rest)
        = String.mk c.data.reverse.reverse
            :: splitTagsAux (composeChars rest).length [] (composeChars rest) := by
      apply splitTagsAux_flush
      · intro he
        apply data_ne_nil_of_trim htrim
        have := congrArg List.reverse he
        simpa using this
      · cases rest with
        | nil => left; rfl
        | cons hd2 r2 =>
          right
          obtain ⟨sp2, c2⟩ := hd2
          have hh2 := hrest (sp2, c2) (by simp)
          obtain ⟨tc2, htc2⟩ := Option.isSome_iff_exists.mp hh2.1
          refine ⟨String.mk tc2, c2.data ++ composeChars r2, ?_⟩
          have hcr : composeChars ((sp2, c2) :: r2) = tc2 ++ (c2.data ++ composeChars r2) := by
            simp [composeChars, htc2]
          rw [hcr, matchTagAt_at_tag sp2 tc2 htc2]
    rw [hflush, ih hrest]
    simp [partsOf, htc]

lemma jsTrim_tag {sp : Speaker} {tc : List Char} (h : tagChars? sp = some tc) :
    jsTrim (String.mk tc) = String.mk tc := by
  cases sp <;> simp [tagChars?] at h <;> subst h <;> decide

lemma tagSpeaker?_tag {sp : Speaker} {tc : List Char} (h : tagChars? sp = some tc) :
    tagSpeaker? (String.mk tc) = some sp := by
  cases sp <;> simp [tagChars?] at h <;> subst h <;> decide

/-- On the alternating parts of a well-formed composition, the parser loop
appends one utterance per pair, discarding the pairs whose speaker is the
bound human role. -/
lemma parseLoop_partsOf :
    ∀ (u : Speaker) (ft : Option Speaker) (pairs : List (Speaker × String))
      (msgs : List Utterance), WellFormedPairs pairs →
      parseLoop (some u) ft msgs (partsOf pairs) = msgs ++ keptPairs u pairs := by
  intro u ft pairs
  induction pairs with
  | nil =>
    intro msgs _
    simp only [partsOf]
    simp only [keptPairs]
    simp [parseLoop]
  | cons hd rest ih =>
    intro msgs hwf
    obtain ⟨sp, c⟩ := hd
    obtain ⟨hsome, htrim, hnb⟩ := hwf (sp, c) (by simp)
    obtain ⟨tc, htc⟩ := Option.isSome_iff_exists.mp hsome
    have hrest : WellFormedPairs rest := fun p hp => hwf p (by simp [hp])
    have hparts : partsOf ((sp, c) :: rest) = String.mk tc :: c :: partsOf rest := by
      simp [partsOf, htc]
    have ih2 : ∀ m : List Utterance,
        parseLoop (some u) ft m (partsOf rest) = m ++ keptPairs u rest :=
      fun m => ih m hrest
    by_cases hu : u = sp
    · subst hu
      rw [hparts, parseLoop.eq_def]
      simp [jsTrim_tag htc, tagSpeaker?_tag htc, optFalsy, htrim, keptPairs, ih2]
    · rw [hparts, parseLoop.eq_def]
      simp [jsTrim_tag htc, tagSpeaker?_tag htc, optFalsy, htrim, keptPairs, hu, Ne.symm hu, ih2]

/-- The full parser on a well-formed composition: one utterance per
non-human pair, in order, with trimmed content. -/
lemma parseAIResponse_composePairs :
    ∀ (u : Speaker) (pairs : List (Speaker × String)), WellFormedPairs pairs →
      parseAIResponse (some u) (composePairs pairs) = keptPairs u pairs := by
  intro u pairs hwf
  show parseLoop (some u) (firstTagSpeaker (composePairs pairs).data) []
      (splitTags (composePairs pairs)) = _
  have hdata : (composePairs pairs).data = composeChars pairs := rfl
  unfold splitTags
  rw [hdata, split_composeChars pairs hwf, parseLoop_partsOf u _ pairs [] hwf]
  simp

lemma keptPairs_eq_utterancesOf :
    ∀ (u : Speaker) (pairs : List (Speaker × String)), (∀ p ∈ pairs, p.1 ≠ u) →
      keptPairs u pairs = utterancesOf pairs := by
  intro u pairs
  induction pairs with
  | nil => intro _; rfl
  | cons hd rest ih =>
    intro h
    obtain ⟨sp, c⟩ := hd
    have hne : sp ≠ u := h (sp, c) (by simp)
    simp [keptPairs, utterancesOf, hne, ih (fun p hp => h p (by simp [hp]))]

/-- Claim C1 as amended: on every accumulated text composed of well-formed
tag+content pairs (non-empty trimmed contents containing no bracket), every
pair whose tag's speaker equals the bound human role is discarded — content
dropped, not converted, not merged — and the output is exactly the non-human
pairs in order.  (As originally stated the claim also covered malformed
texts, where it fails: a trailing human tag with no following content yields
an empty-text placeholder attributed to the human role, and tag-less
continuation text after a discarded human tag can be appended to such a
placeholder — see the counterexample.) -/
theorem c1_amended_impersonation_filtered_on_wellformed :
    ∀ (u : Speaker) (pairs : List (Speaker × String)), WellFormedPairs pairs →
      parseAIResponse (some u) (composePairs pairs) = keptPairs u pairs :=
  parseAIResponse_composePairs

/-- Witness for the amended C1 at the spec's own impersonation scenario:
human role Defense, input `"[JUEZ]: Orden en la sala. [DEFENSA]: ¡Protesto!"`,
output exactly the judge utterance — the Defense pair is discarded. -/
theorem c1_witness :
    parseAIResponse (some Speaker.Defensa)
      "[JUEZ]: Orden en la sala. [DEFENSA]: ¡Protesto!"
      = [⟨Speaker.Juez, "Orden en la sala."⟩] := by
  have h := c1_amended_impersonation_filtered_on_wellformed Speaker.Defensa
    [(Speaker.Juez, " Orden en la sala. "), (Speaker.Defensa, " ¡Protesto!")] (by decide)
  have e : composePairs
      [(Speaker.Juez, " Orden en la sala. "), (Speaker.Defensa, " ¡Protesto!")]
      = "[JUEZ]: Orden en la sala. [DEFENSA]: ¡Protesto!" := by decide
  rw [e] at h
  rw [h]
  decide

/-- Claim C6: on every accumulated text composed of well-formed tag+content
pairs whose speakers are all AI roles, the parser returns exactly one
utterance per pair, in source order, with the tag's speaker and the exact
trimmed content. -/
theorem c6_wellformed_one_utterance_per_pair :
    ∀ (u : Speaker) (pairs : List (Speaker × String)), WellFormedPairs pairs →
      (∀ p ∈ pairs, isAISpeaker u p.1 = true) →
      parseAIResponse (some u) (composePairs pairs) = utterancesOf pairs := by
  intro u pairs hwf hai
  rw [parseAIResponse_composePairs u pairs hwf, keptPairs_eq_utterancesOf]
  intro p hp
  have h2 := hai p hp
  simp [isAISpeaker] at h2
  exact h2.1

/-- Witness for C6 at the claim's concrete scenario: human role Defense,
input `"[JUEZ]: Hola. [MINISTERIO PÚBLICO]: Hola también."`, output exactly
the two utterances `(Judge, "Hola.")` then `(Prosecutor, "Hola también.")`. -/
theorem c6_witness :
    parseAIResponse (some Speaker.Defensa)
      "[JUEZ]: Hola. [MINISTERIO PÚBLICO]: Hola también."
      = [⟨Speaker.Juez, "Hola."⟩, ⟨Speaker.MinisterioPublico, "Hola también."⟩] := by
  have h := c6_wellformed_one_utterance_per_pair Speaker.Defensa
    [(Speaker.Juez, " Hola. "), (Speaker.MinisterioPublico, " Hola también.")]
    (by decide) (by decide)
  have e : composePairs
      [(Speaker.Juez, " Hola. "), (Speaker.MinisterioPublico, " Hola también.")]
      = "[JUEZ]: Hola. [MINISTERIO PÚBLICO]: Hola también." := by decide
  rw [e] at h
  rw [h]
  decide

/-! ### Narration-queue counting lemmas -/

lemma preload_length (synth : String → Speaker → Option String) (q : List QItem) :
    (preloadNext synth q).length = q.length := by
  cases q with
  | nil => rfl
  | cons it rest => simp [preloadNext]; split_ifs <;> simp

/-- Preloading only fills in the cached audio of the next item with exactly
the URL synthesis would produce, so the effective synthesis outcome of every
queue item is unchanged. -/
lemma preload_countP (synth : String → Speaker → Option String) (q : List QItem)
    (f : Option String → Bool) :
    (preloadNext synth q).countP (fun it => f (it.audioUrl.or (synth it.text it.speaker)))
      = q.countP (fun it => f (it.audioUrl.or (synth it.text it.speaker))) := by
  cases q with
  | nil => rfl
  | cons it rest =>
    simp only [preloadNext]
    split_ifs with hs
    · rfl
    · have hn : it.audioUrl = none := Option.not_isSome_iff_eq_none.mp hs
      rw [List.countP_cons, List.countP_cons]
      have he : ({ it with audioUrl := synth it.text it.speaker } : QItem).audioUrl.or
            (synth ({ it with audioUrl := synth it.text it.speaker } : QItem).text
              ({ it with audioUrl := synth it.text it.speaker } : QItem).speaker)
          = it.audioUrl.or (synth it.text it.speaker) := by
        rw [hn]
        cases h2 : synth it.text it.speaker <;> simp [Option.or]
      rw [he]

/-- Drain-loop accounting: the loop empties the queue, adds one completed
dialogue per item whose synthesis (or cache) yields audio, one failed
dialogue per item whose synthesis fails, and leaves the total counter
unchanged. -/
lemma processQueueLoop_counts :
    ∀ (fuel : Nat) (s : AudioState) (synth : String → Speaker → Option String),
      s.queue.length ≤ fuel →
      (processQueueLoop synth fuel s).completedDialogues
          = s.completedDialogues
            + s.queue.countP (fun it => (it.audioUrl.or (synth it.text it.speaker)).isSome) ∧
      (processQueueLoop synth fuel s).failedDialogues
          = s.failedDialogues
            + s.queue.countP (fun it => (it.audioUrl.or (synth it.text it.speaker)).isNone) ∧
      (processQueueLoop synth fuel s).queue = [] ∧
      (processQueueLoop synth fuel s).totalQueuedDialogues = s.totalQueuedDialogues := by
  intro fuel
  induction fuel with
  | zero =>
    intro s synth h
    have hq : s.queue = [] := List.length_eq_zero.mp (Nat.le_zero.mp h)
    rw [processQueueLoop.eq_def]
    simp [hq, finishQueue]
    split_ifs <;> simp [hq]
  | succ fuel ih =>
    intro s synth h
    cases hq : s.queue with
    | nil =>
      rw [processQueueLoop.eq_def]
      simp [hq, finishQueue]
      split_ifs <;> simp [hq]
    | cons item rest =>
      rw [processQueueLoop.eq_def]
      simp only [hq]
      cases heff : item.audioUrl.or (synth item.text item.speaker) with
      | none =>
        have hnone : (item.audioUrl.or (synth item.text item.speaker)).isNone = true := by
          rw [heff]; rfl
        have hsome : (item.audioUrl.or (synth item.text item.speaker)).isSome = false := by
          rw [heff]; rfl
        simp only []
        have hb : rest.length ≤ fuel := by
          rw [hq] at h; simp at h; omega
        have hih := ih { s with failedDialogues := s.failedDialogues + 1, queue := rest } synth
          (by simpa using hb)
        refine ⟨?_, ?_, hih.2.2.1, hih.2.2.2⟩
        · rw [hih.1, List.countP_cons, hsome]
          simp
        · rw [hih.2.1, List.countP_cons, hnone]
          simp
          omega
      | some url =>
        have hnone : (item.audioUrl.or (synth item.text item.speaker)).isNone = false := by
          rw [heff]; rfl
        have hsome : (item.audioUrl.or (synth item.text item.speaker)).isSome = true := by
          rw [heff]; rfl
        simp only []
        have hb : (preloadNext synth rest).length ≤ fuel := by
          rw [preload_length]
          rw [hq] at h; simp at h; omega
        have hih := ih
          { s with queue := preloadNext synth rest,
                   completedDialogues := s.completedDialogues + 1,
                   currentMessageId := none,
                   replayBuffer := pushReplay s.replayBuffer { item with audioUrl := some url },
                   revokedUrls := s.revokedUrls ++ [url],
                   currentAudio := none,
                   isPlaying := false,
                   currentVolume := if s.isMuted then 0 else 1,
                   playbackPos := 0 } synth (by simpa using hb)
        refine ⟨?_, ?_, hih.2.2.1, hih.2.2.2⟩
        · rw [hih.1]
          show s.completedDialogues + 1 + _ = _
          rw [preload_countP synth rest (fun o => o.isSome), List.countP_cons, hsome]
          simp
          omega
        · rw [hih.2.1]
          show s.failedDialogues + _ = _
          rw [preload_countP synth rest (fun o => o.isNone), List.countP_cons, hnone]
          simp

/-- Every queue item either completes or fails. -/
lemma countP_some_add_countP_none (synth : String → Speaker → Option String) :
    ∀ q : List QItem,
      q.countP (fun it => (it.audioUrl.or (synth it.text it.speaker)).isSome)
        + q.countP (fun it => (it.audioUrl.or (synth it.text it.speaker)).isNone)
      = q.length := by
  intro q
  induction q with
  | nil => rfl
  | cons it rest ih =>
    rw [List.countP_cons, List.countP_cons, List.length_cons]
    cases h : it.audioUrl.or (synth it.text it.speaker) with
    | none =>
      have e1 : (if (none : Option String).isSome = true then (1 : Nat) else 0) = 0 := rfl
      have e2 : (if (none : Option String).isNone = true then (1 : Nat) else 0) = 1 := rfl
      rw [e1, e2]
      omega
    | some v =>
      have e1 : (if (some v).isSome = true then (1 : Nat) else 0) = 1 := rfl
      have e2 : (if (some v).isNone = true then (1 : Nat) else 0) = 0 := rfl
      rw [e1, e2]
      omega

/-- Speaking a batch of messages with non-empty cleaned texts appends one
fresh queue item per message and counts them in the total. -/
lemma speakAll_state :
    ∀ (msgs : List (String × Speaker × Option String)) (s : AudioState),
      (∀ m ∈ msgs, cleanTextForSpeech m.1 ≠ "") →
      (speakAll msgs s).queue = s.queue ++ msgs.map mkSpeakItem ∧
      (speakAll msgs s).totalQueuedDialogues = s.totalQueuedDialogues + msgs.length ∧
      (speakAll msgs s).completedDialogues = s.completedDialogues ∧
      (speakAll msgs s).failedDialogues = s.failedDialogues ∧
      (speakAll msgs s).isProcessingQueue = s.isProcessingQueue := by
  intro msgs
  induction msgs with
  | nil => intro s _; simp [speakAll]
  | cons m msgs ih =>
    intro s hne
    have hm : cleanTextForSpeech m.1 ≠ "" := hne m (by simp)
    have hstep : speakAll (m :: msgs) s
        = speakAll msgs (speak m.1 m.2.1 m.2.2 s) := by
      simp [speakAll]
    have hspeak : speak m.1 m.2.1 m.2.2 s
        = { s with queue := s.queue ++ [mkSpeakItem m],
                   totalQueuedDialogues := s.totalQueuedDialogues + 1,
                   isQueueActive := true } := by
      simp [speak, hm, mkSpeakItem]
    rw [hstep, hspeak]
    obtain ⟨h1, h2, h3, h4, h5⟩ := ih _ (fun x hx => hne x (by simp [hx]))
    refine ⟨?_, ?_, h3, h4, h5⟩
    · rw [h1]; simp
    · rw [h2]; simp; omega

/-- Accounting for one `processQueue` run started while no loop is active. -/
lemma processQueue_counts (synth : String → Speaker → Option String) (s : AudioState)
    (hp : s.isProcessingQueue = false) :
    (processQueue synth s).completedDialogues
        = s.completedDialogues
          + s.queue.countP (fun it => (it.audioUrl.or (synth it.text it.speaker)).isSome) ∧
    (processQueue synth s).failedDialogues
        = s.failedDialogues
          + s.queue.countP (fun it => (it.audioUrl.or (synth it.text it.speaker)).isNone) ∧
    (processQueue synth s).queue = [] := by
  have h2 := processQueueLoop_counts s.queue.length
    { s with isProcessingQueue := true } synth (by simp)
  simp only [] at h2
  unfold processQueue
  rw [hp]
  simp only [Bool.false_eq_true, if_false]
  exact ⟨h2.1, h2.2.1, h2.2.2.1⟩

/-- Claim C7: enqueuing N messages (with non-empty cleaned texts) and letting
the processing loop drain the queue yields completed + failed = N, an empty
queue, and one failed dialogue for exactly the items whose synthesis — the
retrying `generateSpeechWithRetry` with retry bound 2 over the per-attempt
oracle — returns null after exhausting its attempts; a synthesis failure
never stalls the queue. -/
theorem c7_queue_drains_completed_plus_failed :
    ∀ (oracle : String → Speaker → Nat → Option String)
      (msgs : List (String × Speaker × Option String)),
      (∀ m ∈ msgs, cleanTextForSpeech m.1 ≠ "") →
      (processQueue (fun t sp => generateSpeechWithRetry true true (oracle t sp) 2)
          (speakAll msgs initState)).completedDialogues
        + (processQueue (fun t sp => generateSpeechWithRetry true true (oracle t sp) 2)
            (speakAll msgs initState)).failedDialogues
        = msgs.length ∧
      (processQueue (fun t sp => generateSpeechWithRetry true true (oracle t sp) 2)
          (speakAll msgs initState)).queue = [] ∧
      (processQueue (fun t sp => generateSpeechWithRetry true true (oracle t sp) 2)
          (speakAll msgs initState)).failedDialogues
        = msgs.countP (fun m =>
            (generateSpeechWithRetry true true (oracle (cleanTextForSpeech m.1) m.2.1) 2).isNone) := by
  intro oracle msgs hne
  obtain ⟨hq, htot, hcomp, hfail, hproc⟩ := speakAll_state msgs initState hne
  have hq2 : (speakAll msgs initState).queue = msgs.map mkSpeakItem := by
    rw [hq]; rfl
  have hcomp2 : (speakAll msgs initState).completedDialogues = 0 := by rw [hcomp]; rfl
  have hfail2 : (speakAll msgs initState).failedDialogues = 0 := by rw [hfail]; rfl
  have hproc2 : (speakAll msgs initState).isProcessingQueue = false := by rw [hproc]; rfl
  obtain ⟨hc, hf, hqq⟩ := processQueue_counts
    (fun t sp => generateSpeechWithRetry true true (oracle t sp) 2)
    (speakAll msgs initState) hproc2
  rw [hq2, hcomp2] at hc
  rw [hq2, hfail2] at hf
  have hmapN : (msgs.map mkSpeakItem).countP
      (fun it => (it.audioUrl.or
        ((fun t sp => generateSpeechWithRetry true true (oracle t sp) 2) it.text it.speaker)).isNone)
      = msgs.countP (fun m =>
          (generateSpeechWithRetry true true (oracle (cleanTextForSpeech m.1) m.2.1) 2).isNone) := by
    rw [List.countP_map]
    rfl
  refine ⟨?_, hqq, ?_⟩
  · rw [hc, hf]
    have hsum := countP_some_add_countP_none
      (fun t sp => generateSpeechWithRetry true true (oracle t sp) 2) (msgs.map mkSpeakItem)
    simp only [Nat.zero_add]
    rw [hsum]
    simp
  · rw [hf]
    simpa using hmapN

/-- Witness for C7: two enqueued messages, an oracle that synthesizes only
the judge's voice; the run completes one dialogue, fails one, and drains the
queue — completed + failed = 2. -/
theorem c7_witness :
    (processQueue (fun t sp => generateSpeechWithRetry true true
        ((fun (_ : String) (sp2 : Speaker) (_ : Nat) =>
          if sp2 = Speaker.Juez then some "url-juez" else none) t sp) 2)
      (speakAll [("Hola señores.", Speaker.Juez, none),
                 ("Protesto.", Speaker.MinisterioPublico, none)] initState)).completedDialogues
    + (processQueue (fun t sp => generateSpeechWithRetry true true
        ((fun (_ : String) (sp2 : Speaker) (_ : Nat) =>
          if sp2 = Speaker.Juez then some "url-juez" else none) t sp) 2)
      (speakAll [("Hola señores.", Speaker.Juez, none),
                 ("Protesto.", Speaker.MinisterioPublico, none)] initState)).failedDialogues
    = 2 ∧
    (processQueue (fun t sp => generateSpeechWithRetry true true
        ((fun (_ : String) (sp2 : Speaker) (_ : Nat) =>
          if sp2 = Speaker.Juez then some "url-juez" else none) t sp) 2)
      (speakAll [("Hola señores.", Speaker.Juez, none),
                 ("Protesto.", Speaker.MinisterioPublico, none)] initState)).queue = [] := by
  have h := c7_queue_drains_completed_plus_failed
    (fun (_ : String) (sp2 : Speaker) (_ : Nat) =>
      if sp2 = Speaker.Juez then some "url-juez" else none)
    [("Hola señores.", Speaker.Juez, none),
     ("Protesto.", Speaker.MinisterioPublico, none)] (by decide)
  exact ⟨h.1, h.2.1⟩

/-- Claim C9: `setMuted` changes only the output volume — the queue contents
and ordering, the playback position, the paused/active flags, the counters,
the current audio handle, the active message id and the replay buffer are
all untouched, and muting does not change the number of items a subsequent
queue run completes. -/
theorem c9_setMuted_frame :
    ∀ (m : Bool) (s : AudioState) (synth : String → Speaker → Option String),
      (setMuted m s).queue = s.queue ∧
      (setMuted m s).isPaused = s.isPaused ∧
      (setMuted m s).isQueueActive = s.isQueueActive ∧
      (setMuted m s).totalQueuedDialogues = s.totalQueuedDialogues ∧
      (setMuted m s).completedDialogues = s.completedDialogues ∧
      (setMuted m s).failedDialogues = s.failedDialogues ∧
      (setMuted m s).playbackPos = s.playbackPos ∧
      (setMuted m s).currentAudio = s.currentAudio ∧
      (setMuted m s).currentMessageId = s.currentMessageId ∧
      (setMuted m s).replayBuffer = s.replayBuffer ∧
      (processQueue synth (setMuted m s)).completedDialogues
        = (processQueue synth s).completedDialogues := by
  intro m s synth
  refine ⟨rfl, rfl, rfl, rfl, rfl, rfl, rfl, rfl, rfl, rfl, ?_⟩
  cases hp : s.isProcessingQueue with
  | true =>
    have hp2 : (setMuted m s).isProcessingQueue = true := hp
    unfold processQueue
    rw [hp, hp2]
    rfl
  | false =>
    have hp2 : (setMuted m s).isProcessingQueue = false := hp
    obtain ⟨h1, _, _⟩ := processQueue_counts synth (setMuted m s) hp2
    obtain ⟨h2, _, _⟩ := processQueue_counts synth s hp
    rw [h1, h2]
    rfl
